import Mathlib

/-!
Verification of the WRC Coach binary-log decoder and stroke analysis scripts.

The byte-level model follows `py_scripts/read_wrcdata.py` (class `WRCDataReader`),
`py_scripts/check_file.py` (`check_file`) and the V1 writer layout of
`py_scripts/test_binary_format.py` (`write_binary_test_file`).  A byte buffer is a
`List Nat`; multi-byte fields (`u32`, `f32`, `f64`) are modelled by their
little-endian bit patterns as natural numbers, exactly the bytes that
`struct.pack`/`struct.unpack` move — so float round-trips are stated at the level of
the stored bit patterns.  `struct.unpack_from` raises `struct.error` when fewer
bytes than the format needs remain; the model returns `Except.error RErr.truncated`
under the same condition and the same results otherwise, so a run of consecutive
`unpack_from` calls is modelled by one window read of the combined size (identical
success results, identical failure condition and kind).

The stroke-metrics model follows `py_scripts/visualize_wrcdata.py`
(`StrokeAnalyzer.calculate_stroke_metrics`), with real arithmetic modelled over ℚ
(every operation appearing in the verified claims is exact in IEEE-754 as well);
`np.std` is the square root of the population variance, so the model carries the
variance and a `Real.sqrt` wrapper for the standard deviation.
-/

namespace WRC

/-- Decidable equality for `Except` results, so that concrete runs of the
decoder can be checked by `decide`. -/
instance {ε α : Type} [DecidableEq ε] [DecidableEq α] : DecidableEq (Except ε α) := fun a b =>
  match a, b with
  | .ok x, .ok y =>
    if h : x = y then isTrue (by rw [h]) else isFalse (fun c => by cases c; exact h rfl)
  | .error x, .error y =>
    if h : x = y then isTrue (by rw [h]) else isFalse (fun c => by cases c; exact h rfl)
  | .ok _, .error _ => isFalse (fun c => by cases c)
  | .error _, .ok _ => isFalse (fun c => by cases c)

/-- Error kinds of the reader: `invalidFormat` models the
`ValueError('Invalid file format: ...')` raised on an unrecognized magic tag,
`badAscii` the `UnicodeDecodeError` of `.decode('ascii')` on a non-ASCII byte,
and `truncated` the `struct.error` of `struct.unpack_from` on a short buffer. -/
inductive RErr where
  | invalidFormat
  | badAscii
  | truncated
deriving DecidableEq, Repr

/-- Little-endian value of a byte list, as `struct.unpack('<...')` computes it. -/
def leNat : List Nat → Nat
  | [] => 0
  | b :: bs => b + 256 * leNat bs

/-- Little-endian 4-byte encoding of `n`, as `struct.pack('<I')` / `('<f')`
produce for a value with bit pattern `n`. -/
def le32 (n : Nat) : List Nat :=
  [n % 256, n / 256 % 256, n / 65536 % 256, n / 16777216 % 256]

/-- Little-endian 8-byte encoding of `n`, as `struct.pack('<d')` produces for a
value with bit pattern `n`. -/
def le64 (n : Nat) : List Nat :=
  [n % 256, n / 256 % 256, n / 65536 % 256, n / 16777216 % 256,
   n / 4294967296 % 256, n / 1099511627776 % 256,
   n / 281474976710656 % 256, n / 72057594037927936 % 256]

/-- Model of one `struct.unpack_from` window: the `n` bytes starting at `off`,
or `truncated` when fewer than `n` bytes remain (Python: `struct.error`). -/
def getBytes (data : List Nat) (off n : Nat) : Except RErr (List Nat) :=
  if off + n ≤ data.length then .ok ((data.drop off).take n) else .error .truncated

/-- Model of `bytes.rstrip(b'\x00')`: remove trailing zero bytes. -/
def rstrip0 (l : List Nat) : List Nat :=
  (l.reverse.dropWhile (fun b => b == 0)).reverse

/-- The ASCII bytes of the tag `WRC_COACH_V1`. -/
def tagV1 : List Nat := [87, 82, 67, 95, 67, 79, 65, 67, 72, 95, 86, 49]

/-- The ASCII bytes of the tag `WRC_COACH_V2`. -/
def tagV2 : List Nat := [87, 82, 67, 95, 67, 79, 65, 67, 72, 95, 86, 50]

/-- The ASCII bytes of the tag `WRC_COACH_V3`. -/
def tagV3 : List Nat := [87, 82, 67, 95, 67, 79, 65, 67, 72, 95, 86, 51]

/-- Model of Python `str.startswith` on ASCII byte lists. -/
def startsWithTag (l tag : List Nat) : Bool :=
  l.take tag.length == tag

/-- Model of `data[off : off+16].rstrip(b'\x00').decode('ascii')`: the trimmed
bytes when they are all ASCII, `badAscii` otherwise.  Python slicing never fails
on a short buffer, it just yields fewer bytes. -/
def decodeMagic (data : List Nat) (off : Nat) : Except RErr (List Nat) :=
  let t := rstrip0 ((data.drop off).take 16)
  if t.all (fun b => b ≤ 127) then .ok t else .error .badAscii

/-- Format detection of `WRCDataReader.read` (read_wrcdata.py lines 87-94):
V2 tag checked before V1; anything else is `Invalid file format`.  No V3 case. -/
def detectVersion (data : List Nat) : Except RErr Nat :=
  match decodeMagic data 0 with
  | .error e => .error e
  | .ok m =>
    if startsWithTag m tagV2 then .ok 2
    else if startsWithTag m tagV1 then .ok 1
    else .error .invalidFormat

/-- Format detection of `check_file` (check_file.py lines 15-30): V3, then V2,
then V1; anything else is reported unknown (modelled as `invalidFormat`). -/
def checkFileVersion (data : List Nat) : Except RErr Nat :=
  match decodeMagic data 0 with
  | .error e => .error e
  | .ok m =>
    if startsWithTag m tagV3 then .ok 3
    else if startsWithTag m tagV2 then .ok 2
    else if startsWithTag m tagV1 then .ok 1
    else .error .invalidFormat

/-- Phone orientation, stored in the source as the strings `'rower'` and
`'coxswain'`; decoded as `coxswain` exactly when the orientation byte is 1. -/
inductive Orientation where
  | rower
  | coxswain
deriving DecidableEq, Repr

/-- Calibration block fields (`CalibrationData` dataclass); float fields carry
their bit patterns. -/
structure CalibrationData where
  pitch_offset : Nat
  roll_offset : Nat
  yaw_offset : Nat
  lateral_offset : Nat
  gravity_magnitude : Nat
  samples : Nat
  variance : Nat
  timestamp : Nat
deriving DecidableEq, Repr

/-- Decoded header (`Header` dataclass); float fields carry their bit patterns,
`magic` the zero-trimmed ASCII bytes. -/
structure Header where
  magic : List Nat
  version : Nat
  imu_count : Nat
  gps_count : Nat
  session_start : Nat
  phone_orientation : Orientation
  demo_mode : Bool
  catch_threshold : Nat
  finish_threshold : Nat
  calibration_count : Nat
  has_calibration : Bool
  calibration : Option CalibrationData
deriving DecidableEq, Repr

/-- Motion (IMU) sample: `f64` timestamp and six `f32` channels, as bit patterns. -/
structure IMUSample where
  t : Nat
  ax : Nat
  ay : Nat
  az : Nat
  gx : Nat
  gy : Nat
  gz : Nat
deriving DecidableEq, Repr

/-- Position (GPS) sample: `f64` timestamp, two `f64` coordinates, three `f32`
channels, as bit patterns. -/
structure GPSSample where
  t : Nat
  lat : Nat
  lon : Nat
  speed : Nat
  heading : Nat
  accuracy : Nat
deriving DecidableEq, Repr

/-- Model of `WRCDataReader._read_header`: the magic slice is re-decoded, then
the fixed fields are unpacked; V2 reads the window `[off+16, off+47)`
(counts, calibration count, calibration flag, session start, orientation and
demo bytes, thresholds), V1 the window `[off+16, off+42)` without the
calibration fields. -/
def readHeader (data : List Nat) (off : Nat) (version : Nat) : Except RErr Header :=
  match decodeMagic data off with
  | .error e => .error e
  | .ok m =>
    if version = 2 then
      match getBytes data (off + 16) 31 with
      | .error e => .error e
      | .ok w => .ok
          { magic := m
            version := version
            imu_count := leNat (w.take 4)
            gps_count := leNat ((w.drop 4).take 4)
            calibration_count := leNat ((w.drop 8).take 4)
            has_calibration := leNat ((w.drop 12).take 1) == 1
            session_start := leNat ((w.drop 13).take 8)
            phone_orientation :=
              if leNat ((w.drop 21).take 1) == 1 then .coxswain else .rower
            demo_mode := leNat ((w.drop 22).take 1) == 1
            catch_threshold := leNat ((w.drop 23).take 4)
            finish_threshold := leNat ((w.drop 27).take 4)
            calibration := none }
    else
      match getBytes data (off + 16) 26 with
      | .error e => .error e
      | .ok w => .ok
          { magic := m
            version := version
            imu_count := leNat (w.take 4)
            gps_count := leNat ((w.drop 4).take 4)
            calibration_count := 0
            has_calibration := false
            session_start := leNat ((w.drop 8).take 8)
            phone_orientation :=
              if leNat ((w.drop 16).take 1) == 1 then .coxswain else .rower
            demo_mode := leNat ((w.drop 17).take 1) == 1
            catch_threshold := leNat ((w.drop 18).take 4)
            finish_threshold := leNat ((w.drop 22).take 4)
            calibration := none }

/-- Model of `WRCDataReader._read_calibration`: seven 4-byte fields followed by
one 8-byte timestamp, 36 bytes in all (the block is 64 bytes on disk but only
36 are read; `read` advances the offset by 64). -/
def readCalibration (data : List Nat) (off : Nat) : Except RErr CalibrationData :=
  match getBytes data off 36 with
  | .error e => .error e
  | .ok w => .ok
      { pitch_offset := leNat (w.take 4)
        roll_offset := leNat ((w.drop 4).take 4)
        yaw_offset := leNat ((w.drop 8).take 4)
        lateral_offset := leNat ((w.drop 12).take 4)
        gravity_magnitude := leNat ((w.drop 16).take 4)
        samples := leNat ((w.drop 20).take 4)
        variance := leNat ((w.drop 24).take 4)
        timestamp := leNat ((w.drop 28).take 8) }

/-- Model of `WRCDataReader._read_imu_sample`: `struct.unpack_from('<dffffff')`,
a 32-byte window. -/
def readIMUSample (data : List Nat) (off : Nat) : Except RErr IMUSample :=
  match getBytes data off 32 with
  | .error e => .error e
  | .ok w => .ok
      { t := leNat (w.take 8)
        ax := leNat ((w.drop 8).take 4)
        ay := leNat ((w.drop 12).take 4)
        az := leNat ((w.drop 16).take 4)
        gx := leNat ((w.drop 20).take 4)
        gy := leNat ((w.drop 24).take 4)
        gz := leNat ((w.drop 28).take 4) }

/-- Model of `WRCDataReader._read_gps_sample`: `struct.unpack_from('<dddfff')`,
a 36-byte window. -/
def readGPSSample (data : List Nat) (off : Nat) : Except RErr GPSSample :=
  match getBytes data off 36 with
  | .error e => .error e
  | .ok w => .ok
      { t := leNat (w.take 8)
        lat := leNat ((w.drop 8).take 8)
        lon := leNat ((w.drop 16).take 8)
        speed := leNat ((w.drop 24).take 4)
        heading := leNat ((w.drop 28).take 4)
        accuracy := leNat ((w.drop 32).take 4) }

/-- The IMU record loop of `WRCDataReader.read`: `count` records of stride 32
starting at `off`, aborting on the first short record. -/
def readIMUSamples (data : List Nat) : Nat → Nat → Except RErr (List IMUSample)
  | _, 0 => .ok []
  | off, n + 1 =>
    match readIMUSample data off with
    | .error e => .error e
    | .ok s =>
      match readIMUSamples data (off + 32) n with
      | .error e => .error e
      | .ok rest => .ok (s :: rest)

/-- The GPS record loop of `WRCDataReader.read`: `count` records of stride 36
starting at `off`, aborting on the first short record. -/
def readGPSSamples (data : List Nat) : Nat → Nat → Except RErr (List GPSSample)
  | _, 0 => .ok []
  | off, n + 1 =>
    match readGPSSample data off with
    | .error e => .error e
    | .ok s =>
      match readGPSSamples data (off + 36) n with
      | .error e => .error e
      | .ok rest => .ok (s :: rest)

/-- Result of a successful `WRCDataReader.read`. -/
structure Decoded where
  header : Header
  imu : List IMUSample
  gps : List GPSSample
  cal : List IMUSample
deriving DecidableEq, Repr

/-- Model of `WRCDataReader.read`: detect the version from the magic bytes,
decode the header, skip to offset 128 (V2) or 64 (V1), read the calibration
block when V2 declares one, then the three record arrays.  The calibration
sample loop runs only for V2, exactly as in the source. -/
def read (data : List Nat) : Except RErr Decoded :=
  match detectVersion data with
  | .error e => .error e
  | .ok version =>
    match readHeader data 0 version with
    | .error e => .error e
    | .ok h0 =>
      let off0 : Nat := if version = 2 then 128 else 64
      let step : Except RErr (Header × Nat) :=
        if version = 2 ∧ h0.has_calibration then
          match readCalibration data off0 with
          | .error e => .error e
          | .ok c => .ok ({ h0 with calibration := some c }, off0 + 64)
        else .ok (h0, off0)
      match step with
      | .error e => .error e
      | .ok (h, off1) =>
        match readIMUSamples data off1 h.imu_count with
        | .error e => .error e
        | .ok imu =>
          match readGPSSamples data (off1 + 32 * h.imu_count) h.gps_count with
          | .error e => .error e
          | .ok gps =>
            if version = 2 then
              match readIMUSamples data (off1 + 32 * h.imu_count + 36 * h.gps_count)
                  h.calibration_count with
              | .error e => .error e
              | .ok cal => .ok ⟨h, imu, gps, cal⟩
            else .ok ⟨h, imu, gps, []⟩

/-- The 16-byte magic `b'WRC_COACH_V1\0\0\0\0'` written by
`write_binary_test_file`. -/
def magicV1Padded : List Nat := tagV1 ++ List.replicate 4 0

/-- Byte encoding of one motion record in the V1/V2 layout
(`struct.pack('<d')` then six `struct.pack('<f')`). -/
def encodeIMUSample (s : IMUSample) : List Nat :=
  le64 s.t ++ le32 s.ax ++ le32 s.ay ++ le32 s.az ++ le32 s.gx ++ le32 s.gy ++ le32 s.gz

/-- Byte encoding of one position record in the V1/V2 layout. -/
def encodeGPSSample (s : GPSSample) : List Nat :=
  le64 s.t ++ le64 s.lat ++ le64 s.lon ++ le32 s.speed ++ le32 s.heading ++ le32 s.accuracy

/-- The V1 writer layout of `write_binary_test_file` (test_binary_format.py
lines 67-110), with the header fields the test hardcodes generalized to
parameters: 16-byte zero-padded magic, two `u32` counts, `f64` session start,
orientation and demo-mode bytes (1 for coxswain / demo, 0 otherwise), two `f32`
thresholds, 22 reserved zero bytes (64-byte header in all), then the 32-byte
motion records and 36-byte position records. -/
def writeV1 (session_start : Nat) (coxswain demo : Bool) (catch_t finish_t : Nat)
    (imu : List IMUSample) (gps : List GPSSample) : List Nat :=
  magicV1Padded ++ le32 imu.length ++ le32 gps.length ++ le64 session_start
    ++ [if coxswain then 1 else 0] ++ [if demo then 1 else 0]
    ++ le32 catch_t ++ le32 finish_t ++ List.replicate 22 0
    ++ (imu.map encodeIMUSample).flatten ++ (gps.map encodeGPSSample).flatten

/-- Field bounds of a motion record: one 64-bit and six 32-bit bit patterns. -/
def imuBounds (s : IMUSample) : Prop :=
  s.t < 2 ^ 64 ∧ s.ax < 2 ^ 32 ∧ s.ay < 2 ^ 32 ∧ s.az < 2 ^ 32 ∧
    s.gx < 2 ^ 32 ∧ s.gy < 2 ^ 32 ∧ s.gz < 2 ^ 32

/-- Field bounds of a position record: three 64-bit and three 32-bit bit patterns. -/
def gpsBounds (s : GPSSample) : Prop :=
  s.t < 2 ^ 64 ∧ s.lat < 2 ^ 64 ∧ s.lon < 2 ^ 64 ∧ s.speed < 2 ^ 32 ∧
    s.heading < 2 ^ 32 ∧ s.accuracy < 2 ^ 32

/-- Aggregate stroke metrics (`calculate_stroke_metrics` return dict).
`np.std` is the square root of the population variance, so the model stores the
variance (`stroke_rate_var`, `drive_ratio_var`) and exposes the standard
deviation through `strokeRateStd`. -/
structure StrokeMetrics where
  stroke_rate_mean : ℚ
  stroke_rate_var : ℚ
  drive_ratio_mean : Option ℚ
  drive_ratio_var : Option ℚ
  stroke_count : Nat
deriving DecidableEq, Repr

/-- Model of `np.mean` over ℚ. -/
def listMean (l : List ℚ) : ℚ := l.sum / l.length

/-- Model of the square of `np.std` (population variance) over ℚ. -/
def listVar (l : List ℚ) : ℚ :=
  ((l.map (fun x => (x - listMean l) ^ 2)).sum) / l.length

/-- Model of `np.diff` on an index sequence. -/
def diffList : List ℤ → List ℤ
  | [] => []
  | [_] => []
  | a :: b :: rest => (b - a) :: diffList (b :: rest)

/-- Stroke durations in seconds: `np.diff(catches) / self.fs`. -/
def strokeTimes (catches : List ℤ) (fs : ℚ) : List ℚ :=
  (diffList catches).map (fun d => (d : ℚ) / fs)

/-- Stroke rates in strokes per minute: `60 / stroke_times`. -/
def strokeRates (catches : List ℤ) (fs : ℚ) : List ℚ :=
  (strokeTimes catches fs).map (fun t => 60 / t)

/-- The guard of the drive-ratio loop body at index `i`
(visualize_wrcdata.py lines 46-52): `i < len(finishes)` and
`catches[i] < finishes[i]`, then `i+1 < len(catches)`, then `total_time > 0`. -/
def pairContributes (catches finishes : List ℤ) (fs : ℚ) (i : Nat) : Bool :=
  decide (i < finishes.length) && decide (catches.getD i 0 < finishes.getD i 0) &&
    (decide (i + 1 < catches.length) &&
      decide (0 < ((catches.getD (i + 1) 0 - catches.getD i 0 : ℤ) : ℚ) / fs))

/-- The drive ratio appended for a contributing pair:
`(drive_time / total_time) * 100`. -/
def driveRatioAt (catches finishes : List ℤ) (fs : ℚ) (i : Nat) : ℚ :=
  (((finishes.getD i 0 - catches.getD i 0 : ℤ) : ℚ) / fs) /
      (((catches.getD (i + 1) 0 - catches.getD i 0 : ℤ) : ℚ) / fs) * 100

/-- The drive-ratio list built by the loop
`for i in range(min(len(catches), len(finishes)))`, in loop order. -/
def driveRatios (catches finishes : List ℤ) (fs : ℚ) : List ℚ :=
  (List.range (min catches.length finishes.length)).filterMap
    (fun i =>
      if pairContributes catches finishes fs i then
        some (driveRatioAt catches finishes fs i)
      else none)

/-- Model of `StrokeAnalyzer.calculate_stroke_metrics`: `None` when fewer than
two catches, otherwise the aggregate statistics; the drive-ratio aggregates are
`None` when no pair contributed (`np.mean(drive_ratios) if drive_ratios else
None`). -/
def calculate_stroke_metrics (catches finishes : List ℤ) (fs : ℚ) :
    Option StrokeMetrics :=
  if catches.length < 2 then none
  else
    let rates := strokeRates catches fs
    let dr := driveRatios catches finishes fs
    some
      { stroke_rate_mean := listMean rates
        stroke_rate_var := listVar rates
        drive_ratio_mean := if dr.isEmpty then none else some (listMean dr)
        drive_ratio_var := if dr.isEmpty then none else some (listVar dr)
        stroke_count := catches.length }

/-- The reported stroke-rate standard deviation: `np.std` is the square root of
the population variance carried in the metrics record. -/
noncomputable def strokeRateStd (m : StrokeMetrics) : ℝ :=
  Real.sqrt m.stroke_rate_var

/-! Byte-window helper lemmas. -/

theorem getBytes_of_le {data : List Nat} {off n : Nat} (h : off + n ≤ data.length) :
    getBytes data off n = .ok ((data.drop off).take n) := by
  simp [getBytes, h]

theorem getBytes_err {data : List Nat} {off n : Nat} (h : data.length < off + n) :
    getBytes data off n = .error .truncated := by
  simp [getBytes]
  omega

theorem getBytes_ok_bound {data : List Nat} {off n : Nat} {w : List Nat}
    (h : getBytes data off n = .ok w) : off + n ≤ data.length := by
  by_cases hb : off + n ≤ data.length
  · exact hb
  · simp [getBytes, hb] at h

theorem window_take_stable (data : List Nat) {m off k : Nat} (h : off + k ≤ m) :
    ((data.take m).drop off).take k = (data.drop off).take k := by
  rw [List.drop_take]
  rw [List.take_take]
  congr 1
  omega

theorem window_append_stable (data s : List Nat) {off k : Nat}
    (h : off + k ≤ data.length) :
    (((data ++ s).drop off).take k) = ((data.drop off).take k) := by
  rw [List.drop_append_of_le_length (by omega)]
  rw [List.take_append_of_le_length]
  simp
  omega

theorem getBytes_take {data : List Nat} {m off k : Nat} (h1 : off + k ≤ m)
    (h2 : off + k ≤ data.length) :
    getBytes (data.take m) off k = getBytes data off k := by
  rw [getBytes_of_le h2, getBytes_of_le (by simp; omega)]
  rw [window_take_stable data h1]

theorem getBytes_append {data s : List Nat} {off k : Nat} (h : off + k ≤ data.length) :
    getBytes (data ++ s) off k = getBytes data off k := by
  rw [getBytes_of_le h, getBytes_of_le (by simp; omega)]
  rw [window_append_stable data s h]

theorem rstrip0_length_le (l : List Nat) : (rstrip0 l).length ≤ l.length := by
  have key : ∀ (t : List Nat), (t.dropWhile (fun b => b == 0)).length ≤ t.length := by
    intro t
    induction t with
    | nil => simp
    | cons a r ih =>
      by_cases h : (a == 0) = true
      · simp [List.dropWhile, h]
        omega
      · simp [List.dropWhile, h]
  have := key l.reverse
  simp [rstrip0]
  simpa using this

theorem decodeMagic_take {data : List Nat} {m off : Nat} (h : off + 16 ≤ m) :
    decodeMagic (data.take m) off = decodeMagic data off := by
  simp only [decodeMagic]
  rw [window_take_stable data h]

theorem decodeMagic_append {data s : List Nat} {off : Nat} (h : off + 16 ≤ data.length) :
    decodeMagic (data ++ s) off = decodeMagic data off := by
  simp only [decodeMagic]
  rw [window_append_stable data s h]

theorem detectVersion_take {data : List Nat} {m : Nat} (h : 16 ≤ m) :
    detectVersion (data.take m) = detectVersion data := by
  simp only [detectVersion]
  rw [decodeMagic_take (by omega)]

theorem detectVersion_append {data s : List Nat} (h : 16 ≤ data.length) :
    detectVersion (data ++ s) = detectVersion data := by
  simp only [detectVersion]
  rw [decodeMagic_append (by omega)]

/-! Header and calibration stability lemmas. -/

theorem readHeader_ok_length {data : List Nat} {v : Nat} {h : Header}
    (hh : readHeader data 0 v = .ok h) : 42 ≤ data.length := by
  simp only [readHeader] at hh
  cases hm : decodeMagic data 0 with
  | error e => rw [hm] at hh; cases hh
  | ok m =>
    rw [hm] at hh
    by_cases hv : v = 2
    · simp only [hv, if_true, reduceIte] at hh
      cases hw : getBytes data (0 + 16) 31 with
      | error e => rw [hw] at hh; cases hh
      | ok w => have := getBytes_ok_bound hw; omega
    · simp only [hv, if_false, reduceIte] at hh
      cases hw : getBytes data (0 + 16) 26 with
      | error e => rw [hw] at hh; cases hh
      | ok w => have := getBytes_ok_bound hw; omega

theorem readHeader_take {data : List Nat} {m v : Nat} {h : Header}
    (hh : readHeader data 0 v = .ok h) (hm47 : 47 ≤ m) :
    readHeader (data.take m) 0 v = .ok h := by
  simp only [readHeader] at hh ⊢
  rw [decodeMagic_take (by omega)]
  cases hmg : decodeMagic data 0 with
  | error e => rw [hmg] at hh; cases hh
  | ok mg =>
    rw [hmg] at hh
    by_cases hv : v = 2
    · simp only [hv, reduceIte] at hh ⊢
      cases hw : getBytes data (0 + 16) 31 with
      | error e => rw [hw] at hh; cases hh
      | ok w =>
        rw [hw] at hh
        rw [getBytes_take (by omega) (getBytes_ok_bound hw), hw]
        exact hh
    · simp only [hv, reduceIte] at hh ⊢
      cases hw : getBytes data (0 + 16) 26 with
      | error e => rw [hw] at hh; cases hh
      | ok w =>
        rw [hw] at hh
        rw [getBytes_take (by omega) (getBytes_ok_bound hw), hw]
        exact hh

theorem readHeader_append {data s : List Nat} {v : Nat} {h : Header}
    (hh : readHeader data 0 v = .ok h) :
    readHeader (data ++ s) 0 v = .ok h := by
  have hlen := readHeader_ok_length hh
  simp only [readHeader] at hh ⊢
  rw [decodeMagic_append (by omega)]
  cases hmg : decodeMagic data 0 with
  | error e => rw [hmg] at hh; cases hh
  | ok mg =>
    rw [hmg] at hh
    by_cases hv : v = 2
    · simp only [hv, reduceIte] at hh ⊢
      cases hw : getBytes data (0 + 16) 31 with
      | error e => rw [hw] at hh; cases hh
      | ok w =>
        rw [hw] at hh
        rw [getBytes_append (getBytes_ok_bound hw), hw]
        exact hh
    · simp only [hv, reduceIte] at hh ⊢
      cases hw : getBytes data (0 + 16) 26 with
      | error e => rw [hw] at hh; cases hh
      | ok w =>
        rw [hw] at hh
        rw [getBytes_append (getBytes_ok_bound hw), hw]
        exact hh

theorem readCalibration_ok {data : List Nat} {off : Nat} (h : off + 36 ≤ data.length) :
    ∃ c, readCalibration data off = .ok c := by
  simp only [readCalibration]
  rw [getBytes_of_le h]
  exact ⟨_, rfl⟩

theorem readCalibration_append {data s : List Nat} {off : Nat} {c : CalibrationData}
    (h : readCalibration data off = .ok c) :
    readCalibration (data ++ s) off = .ok c := by
  simp only [readCalibration] at h ⊢
  cases hw : getBytes data off 36 with
  | error e => rw [hw] at h; cases h
  | ok w =>
    rw [hw] at h
    rw [getBytes_append (getBytes_ok_bound hw), hw]
    exact h

/-! Record-loop lemmas. -/

theorem readIMUSample_append {data s : List Nat} {off : Nat} {r : IMUSample}
    (h : readIMUSample data off = .ok r) :
    readIMUSample (data ++ s) off = .ok r := by
  simp only [readIMUSample] at h ⊢
  cases hw : getBytes data off 32 with
  | error e => rw [hw] at h; cases h
  | ok w =>
    rw [hw] at h
    rw [getBytes_append (getBytes_ok_bound hw), hw]
    exact h

theorem readGPSSample_append {data s : List Nat} {off : Nat} {r : GPSSample}
    (h : readGPSSample data off = .ok r) :
    readGPSSample (data ++ s) off = .ok r := by
  simp only [readGPSSample] at h ⊢
  cases hw : getBytes data off 36 with
  | error e => rw [hw] at h; cases h
  | ok w =>
    rw [hw] at h
    rw [getBytes_append (getBytes_ok_bound hw), hw]
    exact h

theorem readIMUSamples_length {data : List Nat} :
    ∀ {n off : Nat} {l : List IMUSample},
      readIMUSamples data off n = .ok l → l.length = n := by
  intro n
  induction n with
  | zero =>
    intro off l h
    simp only [readIMUSamples] at h
    cases h
    rfl
  | succ k ih =>
    intro off l h
    simp only [readIMUSamples] at h
    cases hs : readIMUSample data off with
    | error e => rw [hs] at h; cases h
    | ok s =>
      rw [hs] at h
      cases hr : readIMUSamples data (off + 32) k with
      | error e => rw [hr] at h; cases h
      | ok rest =>
        rw [hr] at h
        cases h
        simp [ih hr]

theorem readGPSSamples_length {data : List Nat} :
    ∀ {n off : Nat} {l : List GPSSample},
      readGPSSamples data off n = .ok l → l.length = n := by
  intro n
  induction n with
  | zero =>
    intro off l h
    simp only [readGPSSamples] at h
    cases h
    rfl
  | succ k ih =>
    intro off l h
    simp only [readGPSSamples] at h
    cases hs : readGPSSample data off with
    | error e => rw [hs] at h; cases h
    | ok s =>
      rw [hs] at h
      cases hr : readGPSSamples data (off + 36) k with
      | error e => rw [hr] at h; cases h
      | ok rest =>
        rw [hr] at h
        cases h
        simp [ih hr]

theorem readIMUSamples_ok {data : List Nat} :
    ∀ {n off : Nat}, off + 32 * n ≤ data.length →
      ∃ l, readIMUSamples data off n = .ok l := by
  intro n
  induction n with
  | zero => intro off _; exact ⟨[], rfl⟩
  | succ k ih =>
    intro off h
    have h1 : off + 32 ≤ data.length := by omega
    obtain ⟨l, hl⟩ := @ih (off + 32) (by omega)
    simp only [readIMUSamples, readIMUSample]
    rw [getBytes_of_le h1, hl]
    exact ⟨_, rfl⟩

theorem readGPSSamples_ok {data : List Nat} :
    ∀ {n off : Nat}, off + 36 * n ≤ data.length →
      ∃ l, readGPSSamples data off n = .ok l := by
  intro n
  induction n with
  | zero => intro off _; exact ⟨[], rfl⟩
  | succ k ih =>
    intro off h
    have h1 : off + 36 ≤ data.length := by omega
    obtain ⟨l, hl⟩ := @ih (off + 36) (by omega)
    simp only [readGPSSamples, readGPSSample]
    rw [getBytes_of_le h1, hl]
    exact ⟨_, rfl⟩

theorem readIMUSamples_err {data : List Nat} :
    ∀ {n off : Nat}, off ≤ data.length → data.length < off + 32 * n →
      readIMUSamples data off n = .error .truncated := by
  intro n
  induction n with
  | zero => intro off h1 h2; omega
  | succ k ih =>
    intro off h1 h2
    simp only [readIMUSamples, readIMUSample]
    by_cases hb : off + 32 ≤ data.length
    · rw [getBytes_of_le hb]
      rw [ih hb (by omega)]
    · rw [getBytes_err (by omega)]

theorem readGPSSamples_err {data : List Nat} :
    ∀ {n off : Nat}, off ≤ data.length → data.length < off + 36 * n →
      readGPSSamples data off n = .error .truncated := by
  intro n
  induction n with
  | zero => intro off h1 h2; omega
  | succ k ih =>
    intro off h1 h2
    simp only [readGPSSamples, readGPSSample]
    by_cases hb : off + 36 ≤ data.length
    · rw [getBytes_of_le hb]
      rw [ih hb (by omega)]
    · rw [getBytes_err (by omega)]

theorem readIMUSamples_append {data s : List Nat} :
    ∀ {n off : Nat} {l : List IMUSample},
      readIMUSamples data off n = .ok l → readIMUSamples (data ++ s) off n = .ok l := by
  intro n
  induction n with
  | zero =>
    intro off l h
    simp only [readIMUSamples] at h ⊢
    exact h
  | succ k ih =>
    intro off l h
    simp only [readIMUSamples] at h ⊢
    cases hs : readIMUSample data off with
    | error e => rw [hs] at h; cases h
    | ok smp =>
      rw [hs] at h
      rw [readIMUSample_append hs]
      cases hr : readIMUSamples data (off + 32) k with
      | error e => rw [hr] at h; cases h
      | ok rest =>
        rw [hr] at h
        rw [ih hr]
        exact h

theorem readGPSSamples_append {data s : List Nat} :
    ∀ {n off : Nat} {l : List GPSSample},
      readGPSSamples data off n = .ok l → readGPSSamples (data ++ s) off n = .ok l := by
  intro n
  induction n with
  | zero =>
    intro off l h
    simp only [readGPSSamples] at h ⊢
    exact h
  | succ k ih =>
    intro off l h
    simp only [readGPSSamples] at h ⊢
    cases hs : readGPSSample data off with
    | error e => rw [hs] at h; cases h
    | ok smp =>
      rw [hs] at h
      rw [readGPSSample_append hs]
      cases hr : readGPSSamples data (off + 36) k with
      | error e => rw [hr] at h; cases h
      | ok rest =>
        rw [hr] at h
        rw [ih hr]
        exact h

theorem decodeMagic_ok_eq {data : List Nat} {off : Nat} {m : List Nat}
    (h : decodeMagic data off = .ok m) : m = rstrip0 ((data.drop off).take 16) := by
  simp only [decodeMagic] at h
  split at h
  · cases h
    rfl
  · cases h

theorem startsWithTag_of_eq_ne {m t1 t2 : List Nat} (h : startsWithTag m t1 = true)
    (hlen : t1.length = t2.length) (hne : t1 ≠ t2) : startsWithTag m t2 = false := by
  simp only [startsWithTag, beq_iff_eq] at h
  simp only [startsWithTag, beq_eq_false_iff_ne]
  rw [← hlen, h]
  exact hne

theorem startsWithTag_length_le {m t : List Nat} (h : startsWithTag m t = true) :
    t.length ≤ m.length := by
  simp only [startsWithTag, beq_iff_eq] at h
  have : (m.take t.length).length = t.length := by rw [h]
  simp only [List.length_take] at this
  omega

theorem readHeader_ok_version {data : List Nat} {v : Nat} {h : Header}
    (hh : readHeader data 0 v = .ok h) : h.version = v := by
  simp only [readHeader] at hh
  cases hm : decodeMagic data 0 with
  | error e => rw [hm] at hh; cases hh
  | ok m =>
    rw [hm] at hh
    by_cases hv : v = 2
    · simp only [hv, reduceIte] at hh
      cases hw : getBytes data (0 + 16) 31 with
      | error e => rw [hw] at hh; cases hh
      | ok w =>
        rw [hw] at hh
        cases hh
        exact hv.symm
    · simp only [hv, reduceIte] at hh
      cases hw : getBytes data (0 + 16) 26 with
      | error e => rw [hw] at hh; cases hh
      | ok w =>
        rw [hw] at hh
        cases hh
        rfl

/-! ### C1 — format detection by tag, three versions

The claim states that the Format Detector selects version 1, 2 or 3 for the
three tags.  The decoder's detector (`WRCDataReader.read`, read_wrcdata.py
lines 87-94) recognizes only `WRC_COACH_V1` and `WRC_COACH_V2` and raises
`Invalid file format` for `WRC_COACH_V3`; only the diagnostic `check_file`
detector recognizes all three tags. -/

/-- C1 counterexample: the 16-byte buffer `WRC_COACH_V3\0\0\0\0` satisfies the
claim's hypothesis with tag `WRC_COACH_V3`, yet the decoder's Format Detector
rejects it instead of selecting version 3. -/
theorem C1_counterexample :
    detectVersion (tagV3 ++ List.replicate 4 0) = .error .invalidFormat := by decide

/-- C1 amended: for buffers whose zero-trimmed leading 16 bytes are ASCII,
tag `WRC_COACH_V1` selects version 1 and `WRC_COACH_V2` selects version 2 in
the decoder's detector; tag `WRC_COACH_V3` is rejected by the decoder's
detector with an invalid-format error and is selected as version 3 only by the
`check_file` detector. -/
theorem C1_amended_detection (data : List Nat) (_h16 : 16 ≤ data.length)
    (hascii : (rstrip0 (data.take 16)).all (fun b => b ≤ 127) = true) :
    (startsWithTag (rstrip0 (data.take 16)) tagV1 = true → detectVersion data = .ok 1) ∧
    (startsWithTag (rstrip0 (data.take 16)) tagV2 = true → detectVersion data = .ok 2) ∧
    (startsWithTag (rstrip0 (data.take 16)) tagV3 = true →
      detectVersion data = .error .invalidFormat ∧ checkFileVersion data = .ok 3) := by
  have hm : decodeMagic data 0 = .ok (rstrip0 (data.take 16)) := by
    simp only [decodeMagic, List.drop_zero]
    simp [hascii]
  refine ⟨fun h1 => ?_, fun h2 => ?_, fun h3 => ?_⟩
  · have f2 := @startsWithTag_of_eq_ne _ _ tagV2 h1 (by decide) (by decide)
    simp [detectVersion, hm, f2, h1]
  · simp [detectVersion, hm, h2]
  · have f2 := @startsWithTag_of_eq_ne _ _ tagV2 h3 (by decide) (by decide)
    have f1 := @startsWithTag_of_eq_ne _ _ tagV1 h3 (by decide) (by decide)
    exact ⟨by simp [detectVersion, hm, f1, f2], by simp [checkFileVersion, hm, h3]⟩

/-- C1 witness: both `WRC_COACH_V2\0\0\0\0` and the first 16 bytes of
`WRC_COACH_V2extra\0` (the bytes of `WRC_COACH_V2extr`) select V2. -/
theorem C1_witness :
    detectVersion (tagV2 ++ List.replicate 4 0) = .ok 2 ∧
      detectVersion (tagV2 ++ [101, 120, 116, 114]) = .ok 2 :=
  ⟨(C1_amended_detection (tagV2 ++ List.replicate 4 0) (by decide) (by decide)).2.1
      (by decide),
    (C1_amended_detection (tagV2 ++ [101, 120, 116, 114]) (by decide) (by decide)).2.1
      (by decide)⟩

/-! ### C7 — buffers shorter than 16 bytes

The claim states every buffer shorter than 16 bytes fails and never selects a
version.  The detector slices `data[0:16]` — which simply yields fewer bytes on
a short buffer — so a 12-byte buffer holding a full tag already selects a
version. -/

/-- C7 counterexample: the 12-byte buffer holding exactly `WRC_COACH_V2` is
shorter than 16 bytes, yet the Format Detector selects version 2 instead of
failing. -/
theorem C7_counterexample : tagV2.length < 16 ∧ detectVersion tagV2 = .ok 2 := by
  constructor
  · decide
  · decide

/-- C7 amended: no version is ever selected from a buffer of fewer than 12
bytes (the tag length); the detector fails on such buffers.  Buffers of 12 to
15 bytes may already select a version when their zero-trimmed content starts
with a full tag. -/
theorem C7_amended (data : List Nat) (hlen : data.length < 12) (v : Nat) :
    detectVersion data ≠ .ok v := by
  intro hok
  simp only [detectVersion] at hok
  cases hm : decodeMagic data 0 with
  | error e => rw [hm] at hok; cases hok
  | ok m =>
    rw [hm] at hok
    have hmlen : m.length < 12 := by
      have h1 := decodeMagic_ok_eq hm
      have h2 := rstrip0_length_le ((data.drop 0).take 16)
      rw [h1]
      simp only [List.length_take, List.drop_zero, List.length_drop] at h2 ⊢
      omega
    have f2 : startsWithTag m tagV2 = false := by
      by_cases hc : startsWithTag m tagV2 = true
      · have := startsWithTag_length_le hc
        simp only [tagV2, List.length_cons] at this
        omega
      · simpa using hc
    have f1 : startsWithTag m tagV1 = false := by
      by_cases hc : startsWithTag m tagV1 = true
      · have := startsWithTag_length_le hc
        simp only [tagV1, List.length_cons] at this
        omega
      · simpa using hc
    simp [f1, f2] at hok

/-- C7 witness: the empty buffer is shorter than 12 bytes and selects no
version. -/
theorem C7_witness : ([] : List Nat).length < 12 ∧ detectVersion [] ≠ .ok 1 :=
  ⟨by decide, C7_amended [] (by decide) 1⟩

/-! ### C9 — header decoding is total over the flag bytes -/

/-- C9: for every buffer long enough for the V2 header whose trimmed magic
bytes are ASCII, header decoding succeeds for every value of the orientation
byte (offset 37), demo-mode byte (offset 38) and calibration flag byte
(offset 28), and each decodes to the non-default branch (`coxswain`, demo mode
on, calibration present) exactly when the byte equals 1; every other value
silently selects `rower` / off / absent. -/
theorem C9_header_flags (data : List Nat) (h47 : 47 ≤ data.length)
    (hascii : (rstrip0 (data.take 16)).all (fun b => b ≤ 127) = true) :
    ∃ h, readHeader data 0 2 = .ok h ∧
      (h.phone_orientation = .coxswain ↔ leNat ((data.drop 37).take 1) = 1) ∧
      (h.phone_orientation = .rower ↔ ¬ leNat ((data.drop 37).take 1) = 1) ∧
      (h.demo_mode = true ↔ leNat ((data.drop 38).take 1) = 1) ∧
      (h.has_calibration = true ↔ leNat ((data.drop 28).take 1) = 1) := by
  have hm : decodeMagic data 0 = .ok (rstrip0 (data.take 16)) := by
    simp only [decodeMagic, List.drop_zero]
    simp [hascii]
  have hw : getBytes data (0 + 16) 31 = .ok ((data.drop 16).take 31) := by
    simpa using @getBytes_of_le data 16 31 (by omega)
  have hpos : ∀ a b : Nat, a + b = 37 ∨ a + b = 38 ∨ a + b = 28 → b + 1 ≤ 31 →
      (((data.drop 16).take 31).drop (a + b - 16)).take 1 = (data.drop (a + b)).take 1 := by
    intro a b hab hb
    rw [List.drop_take, List.take_take, List.drop_drop]
    have e1 : 1 ⊓ (31 - (a + b - 16)) = 1 := by omega
    have e2 : 16 + (a + b - 16) = a + b := by omega
    rw [e1, e2]
  have ha : (((data.drop 16).take 31).drop 21).take 1 = (data.drop 37).take 1 := by
    simpa using hpos 16 21 (by omega) (by omega)
  have hb : (((data.drop 16).take 31).drop 22).take 1 = (data.drop 38).take 1 := by
    simpa using hpos 16 22 (by omega) (by omega)
  have hc : (((data.drop 16).take 31).drop 12).take 1 = (data.drop 28).take 1 := by
    simpa using hpos 16 12 (by omega) (by omega)
  refine ⟨{ magic := rstrip0 (data.take 16)
            version := 2
            imu_count := leNat (((data.drop 16).take 31).take 4)
            gps_count := leNat ((((data.drop 16).take 31).drop 4).take 4)
            session_start := leNat ((((data.drop 16).take 31).drop 13).take 8)
            phone_orientation :=
              if leNat ((((data.drop 16).take 31).drop 21).take 1) == 1 then .coxswain
              else .rower
            demo_mode := leNat ((((data.drop 16).take 31).drop 22).take 1) == 1
            catch_threshold := leNat ((((data.drop 16).take 31).drop 23).take 4)
            finish_threshold := leNat ((((data.drop 16).take 31).drop 27).take 4)
            calibration_count := leNat ((((data.drop 16).take 31).drop 8).take 4)
            has_calibration := leNat ((((data.drop 16).take 31).drop 12).take 1) == 1
            calibration := none }, ?_, ?_, ?_, ?_, ?_⟩
  · simp only [readHeader]
    rw [hm, hw]
    rfl
  · rw [show (((data.drop 16).take 31).drop 21).take 1 = (data.drop 37).take 1 from ha]
    by_cases hbyte : leNat ((data.drop 37).take 1) = 1 <;> simp [hbyte]
  · rw [show (((data.drop 16).take 31).drop 21).take 1 = (data.drop 37).take 1 from ha]
    by_cases hbyte : leNat ((data.drop 37).take 1) = 1 <;> simp [hbyte]
  · rw [show (((data.drop 16).take 31).drop 22).take 1 = (data.drop 38).take 1 from hb]
    by_cases hbyte : leNat ((data.drop 38).take 1) = 1 <;> simp [hbyte]
  · rw [show (((data.drop 16).take 31).drop 12).take 1 = (data.drop 28).take 1 from hc]
    by_cases hbyte : leNat ((data.drop 28).take 1) = 1 <;> simp [hbyte]

/-- C9 witness: a 47-byte buffer with value 2 at the orientation byte decodes
successfully (to `rower`, since 2 is not 1). -/
theorem C9_witness :
    47 ≤ (List.replicate 37 0 ++ [2] ++ List.replicate 9 0).length ∧
      ∃ h, readHeader (List.replicate 37 0 ++ [2] ++ List.replicate 9 0) 0 2 = .ok h ∧
        (h.phone_orientation = .coxswain ↔
          leNat (((List.replicate 37 0 ++ [2] ++ List.replicate 9 0).drop 37).take 1) = 1) ∧
        (h.phone_orientation = .rower ↔
          ¬ leNat (((List.replicate 37 0 ++ [2] ++ List.replicate 9 0).drop 37).take 1) = 1) ∧
        (h.demo_mode = true ↔
          leNat (((List.replicate 37 0 ++ [2] ++ List.replicate 9 0).drop 38).take 1) = 1) ∧
        (h.has_calibration = true ↔
          leNat (((List.replicate 37 0 ++ [2] ++ List.replicate 9 0).drop 28).take 1) = 1) :=
  ⟨by decide, C9_header_flags (List.replicate 37 0 ++ [2] ++ List.replicate 9 0)
    (by decide) (by decide)⟩

/-! ### C5 — drive-ratio pair selection

The claim states a pair contributes exactly when
`catches[i] < finishes[i] < catches[i+1]`.  The code checks
`catches[i] < finishes[i]` and `total_time > 0` (i.e.
`catches[i] < catches[i+1]`) but never compares `finishes[i]` with
`catches[i+1]`. -/

/-- C5 counterexample: with catches `[0, 10]` and finishes `[20]`, the pair
violates `finishes[0] < catches[1]` (20 is not below 10), yet the code counts
it, yielding the drive ratio 200 %. -/
theorem C5_counterexample :
    driveRatios [0, 10] [20] 50 = [200] ∧
      ¬ (([20] : List ℤ).getD 0 0 < ([0, 10] : List ℤ).getD 1 0) := by
  constructor
  · norm_num [driveRatios, pairContributes, driveRatioAt, List.filterMap, List.range,
      List.range.loop]
  · decide

/-- C5 amended: with a positive sample rate, a catch/finish pair at position
`i` contributes a drive ratio if and only if `i` is in range of the finish
list, `i+1` is in range of the catch list, `catches[i] < finishes[i]`, and
`catches[i] < catches[i+1]`; the ordering `finishes[i] < catches[i+1]` is not
required.  Pairs violating the checked conditions are silently skipped. -/
theorem C5_amended (catches finishes : List ℤ) (fs : ℚ) (hfs : 0 < fs) (i : Nat) :
    (i < min catches.length finishes.length ∧
        pairContributes catches finishes fs i = true) ↔
      (i < finishes.length ∧ i + 1 < catches.length ∧
        catches.getD i 0 < finishes.getD i 0 ∧
        catches.getD i 0 < catches.getD (i + 1) 0) := by
  have hdiv : ∀ d : ℤ, (0 < ((d : ℚ)) / fs) ↔ 0 < d := by
    intro d
    rw [div_pos_iff]
    constructor
    · rintro (⟨h1, _⟩ | ⟨_, h2⟩)
      · exact_mod_cast h1
      · exact absurd hfs (not_lt.mpr (le_of_lt h2))
    · intro h1
      exact Or.inl ⟨by exact_mod_cast h1, hfs⟩
  simp only [pairContributes, Bool.and_eq_true, decide_eq_true_eq]
  constructor
  · rintro ⟨hmin, ⟨h1, h2⟩, h3, h4⟩
    rw [hdiv, sub_pos] at h4
    exact ⟨h1, h3, h2, h4⟩
  · rintro ⟨h1, h2, h3, h4⟩
    refine ⟨Nat.lt_min.mpr ⟨by omega, h1⟩, ⟨h1, h3⟩, h2, ?_⟩
    rw [hdiv, sub_pos]
    exact h4

/-- C5 witness: with catches `[0, 10]`, finishes `[5]` and rate 50, the
well-ordered pair at index 0 contributes. -/
theorem C5_witness :
    (0 : ℚ) < 50 ∧
      (0 < min ([0, 10] : List ℤ).length ([5] : List ℤ).length ∧
        pairContributes [0, 10] [5] 50 0 = true) :=
  ⟨by norm_num,
    (C5_amended [0, 10] [5] 50 (by norm_num) 0).mpr
      ⟨by decide, by decide, by decide, by decide⟩⟩

/-! ### C6 — fewer than two catches -/

/-- C6: with zero or one catch the Metrics Calculator returns the explicit
`None` sentinel (here `Option.none`), for every finish list and sample rate;
the model is total, so no error and no division is ever reached. -/
theorem C6_insufficient_data (catches finishes : List ℤ) (fs : ℚ)
    (h : catches.length < 2) :
    calculate_stroke_metrics catches finishes fs = none := by
  simp [calculate_stroke_metrics, h]

/-- C6 witness: the empty catch list yields the sentinel. -/
theorem C6_witness :
    ([] : List ℤ).length < 2 ∧ calculate_stroke_metrics [] [] 50 = none :=
  ⟨by decide, C6_insufficient_data [] [] 50 (by decide)⟩

/-! ### C8 — catches [0, 50, 100, 150] at 50 Hz -/

/-- C8: catches `[0, 50, 100, 150]` at 50 Hz give stroke durations of exactly
1 second each, stroke rates of exactly 60 SPM each, mean stroke rate exactly
60, stroke-rate standard deviation exactly 0 (the population variance is 0 and
`np.std` is its square root), and stroke count 4 — for every finish list. -/
theorem C8_sixty_spm :
    strokeTimes [0, 50, 100, 150] 50 = [1, 1, 1] ∧
    strokeRates [0, 50, 100, 150] 50 = [60, 60, 60] ∧
    ∀ finishes : List ℤ, ∃ m,
      calculate_stroke_metrics [0, 50, 100, 150] finishes 50 = some m ∧
        m.stroke_rate_mean = 60 ∧ m.stroke_rate_var = 0 ∧ strokeRateStd m = 0 ∧
        m.stroke_count = 4 := by
  have hrts : strokeRates [0, 50, 100, 150] 50 = [60, 60, 60] := by
    norm_num [strokeRates, strokeTimes, diffList]
  have hmean : listMean [(60 : ℚ), 60, 60] = 60 := by
    norm_num [listMean]
  have hvar : listVar [(60 : ℚ), 60, 60] = 0 := by
    norm_num [listVar, listMean]
  refine ⟨by norm_num [strokeTimes, diffList], hrts, fun finishes => ?_⟩
  refine ⟨{ stroke_rate_mean := 60, stroke_rate_var := 0,
            drive_ratio_mean :=
              if (driveRatios [0, 50, 100, 150] finishes 50).isEmpty then none
              else some (listMean (driveRatios [0, 50, 100, 150] finishes 50)),
            drive_ratio_var :=
              if (driveRatios [0, 50, 100, 150] finishes 50).isEmpty then none
              else some (listVar (driveRatios [0, 50, 100, 150] finishes 50)),
            stroke_count := 4 }, ?_, rfl, rfl, ?_, rfl⟩
  · simp only [calculate_stroke_metrics]
    rw [if_neg (by norm_num), hrts, hmean, hvar]
    norm_num
  · simp [strokeRateStd]

/-! ### C3 — array lengths match the declared counts -/

/-- C3: whenever decoding succeeds, the motion array has exactly
`imu_count` records and the position array exactly `gps_count` records; for V2
the calibration-capture array has exactly `calibration_count` records. -/
theorem C3_decoded_lengths (data : List Nat) (r : Decoded)
    (hr : read data = .ok r) :
    r.imu.length = r.header.imu_count ∧ r.gps.length = r.header.gps_count ∧
      (r.header.version = 2 → r.cal.length = r.header.calibration_count) := by
  simp only [read] at hr
  split at hr
  · exact absurd hr (by simp)
  · split at hr
    · exact absurd hr (by simp)
    · split at hr
      · exact absurd hr (by simp)
      · split at hr
        · exact absurd hr (by simp)
        · split at hr
          · exact absurd hr (by simp)
          · split at hr
            · split at hr
              · exact absurd hr (by simp)
              · cases hr
                exact ⟨readIMUSamples_length (by assumption),
                  readGPSSamples_length (by assumption),
                  fun _ => readIMUSamples_length (by assumption)⟩
            · cases hr
              refine ⟨readIMUSamples_length (by assumption),
                readGPSSamples_length (by assumption), fun hv2 => ?_⟩
              rename_i x1 version hdet x2 h0 hh stp h off1 hstep x3 imu him x4 gps
                hgps hvne
              rw [if_neg (fun hc => hvne hc.1)] at hstep
              cases hstep
              exact absurd ((readHeader_ok_version hh).symm.trans hv2) hvne

/-- The decode result of the minimal 42-byte V1 buffer with zero counts, used
as a concrete instance below. -/
def v1ZeroDecoded : Decoded :=
  ⟨⟨tagV1, 1, 0, 0, 0, .rower, false, 0, 0, 0, false, none⟩, [], [], []⟩

/-- C3 witness: a minimal V1 buffer with zero counts decodes, and the three
arrays are empty exactly as the counts say. -/
theorem C3_witness :
    read (tagV1 ++ List.replicate 30 0) = .ok v1ZeroDecoded ∧
      (v1ZeroDecoded.imu.length = v1ZeroDecoded.header.imu_count ∧
        v1ZeroDecoded.gps.length = v1ZeroDecoded.header.gps_count ∧
        (v1ZeroDecoded.header.version = 2 →
          v1ZeroDecoded.cal.length = v1ZeroDecoded.header.calibration_count)) :=
  ⟨by decide,
    C3_decoded_lengths (tagV1 ++ List.replicate 30 0) v1ZeroDecoded (by decide)⟩

/-! ### C2 — truncation inside the record region of a well-formed V2 file -/

/-- C2: take a well-formed V2 buffer — one whose length is exactly header size
(128) plus the optional 64-byte calibration block plus `imu_count`·32 plus
`gps_count`·36 plus `calibration_count`·32.  Truncating it anywhere at or after
the start of the record region yields the `truncated` error (Python:
`struct.error` from `unpack_from`), never a success with short arrays. -/
theorem C2_truncation (data : List Nat) (h : Header) (n : Nat)
    (hdet : detectVersion data = .ok 2)
    (hhdr : readHeader data 0 2 = .ok h)
    (hlen : data.length = 128 + (if h.has_calibration then 64 else 0)
      + 32 * h.imu_count + 36 * h.gps_count + 32 * h.calibration_count)
    (hlo : 128 + (if h.has_calibration then 64 else 0) ≤ n)
    (hhi : n < data.length) :
    read (data.take n) = .error .truncated := by
  have hn16 : (16 : Nat) ≤ n := by
    by_cases hc : h.has_calibration <;> simp [hc] at hlo <;> omega
  have hdet2 : detectVersion (data.take n) = .ok 2 := by
    rw [detectVersion_take hn16, hdet]
  have hhdr2 : readHeader (data.take n) 0 2 = .ok h :=
    readHeader_take hhdr (by by_cases hc : h.has_calibration <;> simp [hc] at hlo <;> omega)
  have hlen2 : (data.take n).length = n := by
    simp
    omega
  simp only [read, hdet2, hhdr2]
  by_cases hcal : h.has_calibration
  · simp only [hcal, reduceIte, and_self, true_and, and_true]
    obtain ⟨c, hc⟩ := @readCalibration_ok (data.take n) 128
      (by rw [hlen2]; simp [hcal] at hlo; omega)
    simp only [hc]
    by_cases him : 128 + 64 + 32 * h.imu_count ≤ n
    · obtain ⟨imu, himu⟩ := @readIMUSamples_ok (data.take n) h.imu_count (128 + 64)
        (by rw [hlen2]; omega)
      simp only [himu]
      by_cases hgp : 128 + 64 + 32 * h.imu_count + 36 * h.gps_count ≤ n
      · obtain ⟨gps, hgps⟩ := @readGPSSamples_ok (data.take n) h.gps_count
          (128 + 64 + 32 * h.imu_count) (by rw [hlen2]; omega)
        simp only [hgps]
        have hcs : readIMUSamples (data.take n)
            (128 + 64 + 32 * h.imu_count + 36 * h.gps_count) h.calibration_count
            = .error .truncated :=
          readIMUSamples_err (by rw [hlen2]; omega)
            (by rw [hlen2]; simp [hcal] at hlen; omega)
        simp only [hcs]
      · have hgpserr : readGPSSamples (data.take n) (128 + 64 + 32 * h.imu_count)
            h.gps_count = .error .truncated :=
          readGPSSamples_err (by rw [hlen2]; omega) (by rw [hlen2]; omega)
        simp only [hgpserr]
    · have himuerr : readIMUSamples (data.take n) (128 + 64) h.imu_count
          = .error .truncated :=
        readIMUSamples_err (by rw [hlen2]; simp [hcal] at hlo; omega)
          (by rw [hlen2]; omega)
      simp only [himuerr]
  · simp only [hcal, Bool.false_eq_true, reduceIte, true_and, and_false, if_false]
    by_cases him : 128 + 32 * h.imu_count ≤ n
    · obtain ⟨imu, himu⟩ := @readIMUSamples_ok (data.take n) h.imu_count 128
        (by rw [hlen2]; omega)
      simp only [himu]
      by_cases hgp : 128 + 32 * h.imu_count + 36 * h.gps_count ≤ n
      · obtain ⟨gps, hgps⟩ := @readGPSSamples_ok (data.take n) h.gps_count
          (128 + 32 * h.imu_count) (by rw [hlen2]; omega)
        simp only [hgps]
        have hcs : readIMUSamples (data.take n)
            (128 + 32 * h.imu_count + 36 * h.gps_count) h.calibration_count
            = .error .truncated :=
          readIMUSamples_err (by rw [hlen2]; omega)
            (by rw [hlen2]; simp [hcal] at hlen; omega)
        simp only [hcs]
      · have hgpserr : readGPSSamples (data.take n) (128 + 32 * h.imu_count)
            h.gps_count = .error .truncated :=
          readGPSSamples_err (by rw [hlen2]; omega) (by rw [hlen2]; omega)
        simp only [hgpserr]
    · have himuerr : readIMUSamples (data.take n) 128 h.imu_count
          = .error .truncated :=
        readIMUSamples_err (by rw [hlen2]; simp [hcal] at hlo; omega)
          (by rw [hlen2]; omega)
      simp only [himuerr]

set_option maxRecDepth 40000 in
/-- C2 witness: a 160-byte V2 file with one motion record, truncated to 159
bytes, fails with the truncation error. -/
theorem C2_witness :
    readHeader (tagV2 ++ List.replicate 4 0 ++ [1] ++ List.replicate 143 0) 0 2 =
        .ok ⟨tagV2, 2, 1, 0, 0, .rower, false, 0, 0, 0, false, none⟩ ∧
      read ((tagV2 ++ List.replicate 4 0 ++ [1] ++ List.replicate 143 0).take 159) =
        .error .truncated :=
  ⟨by decide,
    C2_truncation (tagV2 ++ List.replicate 4 0 ++ [1] ++ List.replicate 143 0)
      ⟨tagV2, 2, 1, 0, 0, .rower, false, 0, 0, 0, false, none⟩ 159
      (by decide) (by decide) (by decide) (by decide) (by decide)⟩

/-! ### C10 — surplus trailing bytes are ignored -/

/-- C10: if decoding succeeds on a buffer, appending any (non-empty) byte
suffix leaves the result unchanged — the decoder reads only the declared
regions and never checks that the file length equals their sum. -/
theorem C10_suffix_ignored (data s : List Nat) (r : Decoded)
    (hr : read data = .ok r) (_hs : s ≠ []) :
    read (data ++ s) = .ok r := by
  simp only [read] at hr
  split at hr
  · exact absurd hr (by simp)
  · split at hr
    · exact absurd hr (by simp)
    · split at hr
      · exact absurd hr (by simp)
      · split at hr
        · exact absurd hr (by simp)
        · split at hr
          · exact absurd hr (by simp)
          · split at hr
            · split at hr
              · exact absurd hr (by simp)
              · cases hr
                rename_i x4 version hdet x3 h0 hh stp h off1 hstep x2 imu him x1 gps
                  hgps hv2 x0 cal hcs
                subst hv2
                have hlen16 : 16 ≤ data.length := by
                  have := readHeader_ok_length hh
                  omega
                by_cases hcal : h0.has_calibration
                · rw [if_pos ⟨rfl, hcal⟩] at hstep
                  simp only [reduceIte] at hstep
                  cases hcb : readCalibration data 128 with
                  | error e => simp [hcb] at hstep
                  | ok c =>
                    simp only [hcb] at hstep
                    cases hstep
                    simp only [read, detectVersion_append hlen16, hdet,
                      readHeader_append hh, hcal, reduceIte, and_self, true_and,
                      and_true, readCalibration_append hcb] at him hgps hcs ⊢
                    simp only [readIMUSamples_append him,
                      readGPSSamples_append hgps, readIMUSamples_append hcs]
                · rw [if_neg (fun hc => hcal hc.2)] at hstep
                  simp only [reduceIte] at hstep
                  cases hstep
                  simp only [read, detectVersion_append hlen16, hdet,
                    readHeader_append hh, hcal, Bool.false_eq_true, reduceIte,
                    true_and, and_false, if_false] at him hgps hcs ⊢
                  simp only [readIMUSamples_append him,
                    readGPSSamples_append hgps, readIMUSamples_append hcs]
            · cases hr
              rename_i x3 version hdet x2 h0 hh stp h off1 hstep x1 imu him x0 gps
                hgps hvne
              have hlen16 : 16 ≤ data.length := by
                have := readHeader_ok_length hh
                omega
              rw [if_neg (fun hc => hvne hc.1)] at hstep
              cases hstep
              simp only [read, detectVersion_append hlen16, hdet,
                readHeader_append hh, hvne, reduceIte, if_neg, false_and,
                if_false] at him hgps ⊢
              simp only [readIMUSamples_append him, readGPSSamples_append hgps]

set_option maxRecDepth 20000 in
/-- C10 witness: appending a byte to a decodable V1 buffer leaves the decoded
result identical. -/
theorem C10_witness :
    read (tagV1 ++ List.replicate 30 0) =
        .ok ⟨⟨tagV1, 1, 0, 0, 0, .rower, false, 0, 0, 0, false, none⟩, [], [], []⟩ ∧
      read ((tagV1 ++ List.replicate 30 0) ++ [7]) =
        .ok ⟨⟨tagV1, 1, 0, 0, 0, .rower, false, 0, 0, 0, false, none⟩, [], [], []⟩ :=
  ⟨by decide,
    C10_suffix_ignored (tagV1 ++ List.replicate 30 0) [7]
      ⟨⟨tagV1, 1, 0, 0, 0, .rower, false, 0, 0, 0, false, none⟩, [], [], []⟩
      (by decide) (by decide)⟩

/-! ### C4 — V1 layout round trip -/

theorem leNat_le32 {n : Nat} (h : n < 2 ^ 32) : leNat (le32 n) = n := by
  have h2 : n < 4294967296 := by omega
  simp only [le32, leNat]
  omega

theorem leNat_le64 {n : Nat} (h : n < 2 ^ 64) : leNat (le64 n) = n := by
  have h2 : n < 18446744073709551616 := by omega
  simp only [le64, leNat]
  omega

theorem length_encodeIMUSample (s : IMUSample) : (encodeIMUSample s).length = 32 := by
  simp [encodeIMUSample, le64, le32]

theorem length_encodeGPSSample (s : GPSSample) : (encodeGPSSample s).length = 36 := by
  simp [encodeGPSSample, le64, le32]

theorem length_flatten_imu (l : List IMUSample) :
    ((l.map encodeIMUSample).flatten).length = 32 * l.length := by
  induction l with
  | nil => rfl
  | cons s rest ih =>
    simp [length_encodeIMUSample, ih]
    omega

theorem length_flatten_gps (l : List GPSSample) :
    ((l.map encodeGPSSample).flatten).length = 36 * l.length := by
  induction l with
  | nil => rfl
  | cons s rest ih =>
    simp [length_encodeGPSSample, ih]
    omega

theorem readIMUSample_encode (pre rest : List Nat) (s : IMUSample)
    (hb : imuBounds s) :
    readIMUSample (pre ++ (encodeIMUSample s ++ rest)) pre.length = .ok s := by
  obtain ⟨t, ax, ay, az, gx, gy, gz⟩ := s
  obtain ⟨h1, h2, h3, h4, h5, h6, h7⟩ := hb
  have hlen : pre.length + 32 ≤ (pre ++ (encodeIMUSample ⟨t, ax, ay, az, gx, gy, gz⟩ ++ rest)).length := by
    simp [length_encodeIMUSample]
  simp only [readIMUSample]
  rw [getBytes_of_le hlen]
  rw [List.drop_left' rfl]
  rw [List.take_append_of_le_length (by simp [length_encodeIMUSample])]
  refine congrArg Except.ok ?_
  have e1 : leNat (((encodeIMUSample ⟨t, ax, ay, az, gx, gy, gz⟩).take 32).take 8) = t := by
    show leNat (le64 t) = t
    exact leNat_le64 h1
  have e2 : leNat ((((encodeIMUSample ⟨t, ax, ay, az, gx, gy, gz⟩).take 32).drop 8).take 4) = ax := by
    show leNat (le32 ax) = ax
    exact leNat_le32 h2
  have e3 : leNat ((((encodeIMUSample ⟨t, ax, ay, az, gx, gy, gz⟩).take 32).drop 12).take 4) = ay := by
    show leNat (le32 ay) = ay
    exact leNat_le32 h3
  have e4 : leNat ((((encodeIMUSample ⟨t, ax, ay, az, gx, gy, gz⟩).take 32).drop 16).take 4) = az := by
    show leNat (le32 az) = az
    exact leNat_le32 h4
  have e5 : leNat ((((encodeIMUSample ⟨t, ax, ay, az, gx, gy, gz⟩).take 32).drop 20).take 4) = gx := by
    show leNat (le32 gx) = gx
    exact leNat_le32 h5
  have e6 : leNat ((((encodeIMUSample ⟨t, ax, ay, az, gx, gy, gz⟩).take 32).drop 24).take 4) = gy := by
    show leNat (le32 gy) = gy
    exact leNat_le32 h6
  have e7 : leNat ((((encodeIMUSample ⟨t, ax, ay, az, gx, gy, gz⟩).take 32).drop 28).take 4) = gz := by
    show leNat (le32 gz) = gz
    exact leNat_le32 h7
  simp only [IMUSample.mk.injEq]
  exact ⟨e1, e2, e3, e4, e5, e6, e7⟩

theorem readGPSSample_encode (pre rest : List Nat) (s : GPSSample)
    (hb : gpsBounds s) :
    readGPSSample (pre ++ (encodeGPSSample s ++ rest)) pre.length = .ok s := by
  obtain ⟨t, lat, lon, sp, hd, acc⟩ := s
  obtain ⟨h1, h2, h3, h4, h5, h6⟩ := hb
  have hlen : pre.length + 36 ≤ (pre ++ (encodeGPSSample ⟨t, lat, lon, sp, hd, acc⟩ ++ rest)).length := by
    simp [length_encodeGPSSample]
  simp only [readGPSSample]
  rw [getBytes_of_le hlen]
  rw [List.drop_left' rfl]
  rw [List.take_append_of_le_length (by simp [length_encodeGPSSample])]
  refine congrArg Except.ok ?_
  have e1 : leNat (((encodeGPSSample ⟨t, lat, lon, sp, hd, acc⟩).take 36).take 8) = t := by
    show leNat (le64 t) = t
    exact leNat_le64 h1
  have e2 : leNat ((((encodeGPSSample ⟨t, lat, lon, sp, hd, acc⟩).take 36).drop 8).take 8) = lat := by
    show leNat (le64 lat) = lat
    exact leNat_le64 h2
  have e3 : leNat ((((encodeGPSSample ⟨t, lat, lon, sp, hd, acc⟩).take 36).drop 16).take 8) = lon := by
    show leNat (le64 lon) = lon
    exact leNat_le64 h3
  have e4 : leNat ((((encodeGPSSample ⟨t, lat, lon, sp, hd, acc⟩).take 36).drop 24).take 4) = sp := by
    show leNat (le32 sp) = sp
    exact leNat_le32 h4
  have e5 : leNat ((((encodeGPSSample ⟨t, lat, lon, sp, hd, acc⟩).take 36).drop 28).take 4) = hd := by
    show leNat (le32 hd) = hd
    exact leNat_le32 h5
  have e6 : leNat ((((encodeGPSSample ⟨t, lat, lon, sp, hd, acc⟩).take 36).drop 32).take 4) = acc := by
    show leNat (le32 acc) = acc
    exact leNat_le32 h6
  simp only [GPSSample.mk.injEq]
  exact ⟨e1, e2, e3, e4, e5, e6⟩

theorem readIMUSamples_encode :
    ∀ (l : List IMUSample) (pre post : List Nat), (∀ smp ∈ l, imuBounds smp) →
      readIMUSamples (pre ++ ((l.map encodeIMUSample).flatten ++ post)) pre.length
        l.length = .ok l := by
  intro l
  induction l with
  | nil => intro pre post _; rfl
  | cons smp rest ih =>
    intro pre post hb
    simp only [List.map_cons, List.flatten_cons, List.append_assoc, List.length_cons]
    have hs1 : readIMUSample
        (pre ++ (encodeIMUSample smp ++ ((rest.map encodeIMUSample).flatten ++ post)))
        pre.length = .ok smp :=
      readIMUSample_encode _ _ _ (hb smp (List.mem_cons_self _ _))
    have hs2 : readIMUSamples
        (pre ++ (encodeIMUSample smp ++ ((rest.map encodeIMUSample).flatten ++ post)))
        (pre.length + 32) rest.length = .ok rest := by
      have hd : pre ++ (encodeIMUSample smp ++ ((rest.map encodeIMUSample).flatten ++ post))
          = (pre ++ encodeIMUSample smp) ++ ((rest.map encodeIMUSample).flatten ++ post) :=
        (List.append_assoc _ _ _).symm
      have hlen : pre.length + 32 = (pre ++ encodeIMUSample smp).length := by
        simp [length_encodeIMUSample]
      rw [hd, hlen]
      exact ih (pre ++ encodeIMUSample smp) post
        (fun x hx => hb x (List.mem_cons_of_mem _ hx))
    simp only [readIMUSamples, hs1, hs2]

theorem readGPSSamples_encode :
    ∀ (l : List GPSSample) (pre post : List Nat), (∀ smp ∈ l, gpsBounds smp) →
      readGPSSamples (pre ++ ((l.map encodeGPSSample).flatten ++ post)) pre.length
        l.length = .ok l := by
  intro l
  induction l with
  | nil => intro pre post _; rfl
  | cons smp rest ih =>
    intro pre post hb
    simp only [List.map_cons, List.flatten_cons, List.append_assoc, List.length_cons]
    have hs1 : readGPSSample
        (pre ++ (encodeGPSSample smp ++ ((rest.map encodeGPSSample).flatten ++ post)))
        pre.length = .ok smp :=
      readGPSSample_encode _ _ _ (hb smp (List.mem_cons_self _ _))
    have hs2 : readGPSSamples
        (pre ++ (encodeGPSSample smp ++ ((rest.map encodeGPSSample).flatten ++ post)))
        (pre.length + 36) rest.length = .ok rest := by
      have hd : pre ++ (encodeGPSSample smp ++ ((rest.map encodeGPSSample).flatten ++ post))
          = (pre ++ encodeGPSSample smp) ++ ((rest.map encodeGPSSample).flatten ++ post) :=
        (List.append_assoc _ _ _).symm
      have hlen : pre.length + 36 = (pre ++ encodeGPSSample smp).length := by
        simp [length_encodeGPSSample]
      rw [hd, hlen]
      exact ih (pre ++ encodeGPSSample smp) post
        (fun x hx => hb x (List.mem_cons_of_mem _ hx))
    simp only [readGPSSamples, hs1, hs2]

set_option maxHeartbeats 2000000 in
/-- C4: encoding any header values, motion list and position list with the V1
layout and decoding the result reproduces everything: the magic equals
`WRC_COACH_V1` exactly after zero-trim, the counts are the list lengths, the
orientation and demo-mode flags round-trip through their byte encodings, every
float field returns with exactly the bit pattern that was stored (hence within
one ULP of the value the writer converted), and the calibration fields are
absent (count 0, flag false). -/
theorem C4_round_trip (ss ct ft : Nat) (cox demo : Bool)
    (imu : List IMUSample) (gps : List GPSSample)
    (hss : ss < 2 ^ 64) (hct : ct < 2 ^ 32) (hft : ft < 2 ^ 32)
    (hN : imu.length < 2 ^ 32) (hM : gps.length < 2 ^ 32)
    (himu : ∀ s ∈ imu, imuBounds s) (hgps : ∀ s ∈ gps, gpsBounds s) :
    read (writeV1 ss cox demo ct ft imu gps) =
      .ok ⟨⟨tagV1, 1, imu.length, gps.length, ss,
          (if cox then .coxswain else .rower), demo, ct, ft, 0, false, none⟩,
        imu, gps, []⟩ := by
  have hlen : (writeV1 ss cox demo ct ft imu gps).length
      = 64 + (32 * imu.length + 36 * gps.length) := by
    simp only [writeV1, List.length_append, length_flatten_imu, length_flatten_gps,
      List.length_replicate, magicV1Padded, tagV1, le32, le64, List.length_cons,
      List.length_nil, List.length_singleton]
    omega
  have h16 : (writeV1 ss cox demo ct ft imu gps).take 16 = magicV1Padded := by
    simp only [writeV1]
    exact List.take_left' (show magicV1Padded.length = 16 by decide)
  have hmagic : decodeMagic (writeV1 ss cox demo ct ft imu gps) 0 = .ok tagV1 := by
    simp only [decodeMagic, List.drop_zero]
    rw [h16]
    decide
  have hdet : detectVersion (writeV1 ss cox demo ct ft imu gps) = .ok 1 := by
    simp only [detectVersion, hmagic]
    decide
  have hwin : getBytes (writeV1 ss cox demo ct ft imu gps) (0 + 16) 26
      = .ok (((writeV1 ss cox demo ct ft imu gps).drop 16).take 26) := by
    apply getBytes_of_le
    omega
  have e1 : leNat ((((writeV1 ss cox demo ct ft imu gps).drop 16).take 26).take 4)
      = imu.length := by
    show leNat (le32 imu.length) = imu.length
    exact leNat_le32 hN
  have e2 : leNat (((((writeV1 ss cox demo ct ft imu gps).drop 16).take 26).drop 4).take 4)
      = gps.length := by
    show leNat (le32 gps.length) = gps.length
    exact leNat_le32 hM
  have e3 : leNat (((((writeV1 ss cox demo ct ft imu gps).drop 16).take 26).drop 8).take 8)
      = ss := by
    show leNat (le64 ss) = ss
    exact leNat_le64 hss
  have e4 : (if leNat (((((writeV1 ss cox demo ct ft imu gps).drop 16).take 26).drop 16).take 1)
        == 1 then Orientation.coxswain else Orientation.rower)
      = (if cox then Orientation.coxswain else Orientation.rower) := by
    cases cox <;> rfl
  have e5 : (leNat (((((writeV1 ss cox demo ct ft imu gps).drop 16).take 26).drop 17).take 1)
        == 1) = demo := by
    cases demo <;> rfl
  have e6 : leNat (((((writeV1 ss cox demo ct ft imu gps).drop 16).take 26).drop 18).take 4)
      = ct := by
    show leNat (le32 ct) = ct
    exact leNat_le32 hct
  have e7 : leNat (((((writeV1 ss cox demo ct ft imu gps).drop 16).take 26).drop 22).take 4)
      = ft := by
    show leNat (le32 ft) = ft
    exact leNat_le32 hft
  have hhdr : readHeader (writeV1 ss cox demo ct ft imu gps) 0 1
      = .ok ⟨tagV1, 1, imu.length, gps.length, ss,
          (if cox then .coxswain else .rower), demo, ct, ft, 0, false, none⟩ := by
    simp only [readHeader, hmagic]
    rw [if_neg (by decide : ¬((1 : Nat) = 2))]
    simp only [hwin]
    rw [e1, e2, e3, e4, e5, e6, e7]
  have hgroup : writeV1 ss cox demo ct ft imu gps
      = (magicV1Padded ++ (le32 imu.length ++ (le32 gps.length ++ (le64 ss ++
          ([if cox then 1 else 0] ++ ([if demo then 1 else 0] ++ (le32 ct ++
          (le32 ft ++ List.replicate 22 0))))))))
        ++ ((imu.map encodeIMUSample).flatten ++ ((gps.map encodeGPSSample).flatten ++ [])) := by
    simp [writeV1, List.append_assoc]
  have hgroup2 : writeV1 ss cox demo ct ft imu gps
      = ((magicV1Padded ++ (le32 imu.length ++ (le32 gps.length ++ (le64 ss ++
          ([if cox then 1 else 0] ++ ([if demo then 1 else 0] ++ (le32 ct ++
          (le32 ft ++ List.replicate 22 0))))))))
          ++ (imu.map encodeIMUSample).flatten)
        ++ ((gps.map encodeGPSSample).flatten ++ []) := by
    simp [writeV1, List.append_assoc]
  have hpre : (magicV1Padded ++ (le32 imu.length ++ (le32 gps.length ++ (le64 ss ++
      ([if cox then 1 else 0] ++ ([if demo then 1 else 0] ++ (le32 ct ++
      (le32 ft ++ List.replicate 22 0)))))))).length = 64 := by
    simp [magicV1Padded, tagV1, le32, le64]
  have himuloop : readIMUSamples (writeV1 ss cox demo ct ft imu gps) 64 imu.length
      = .ok imu := by
    rw [hgroup, show (64 : Nat) = (magicV1Padded ++ (le32 imu.length ++ (le32 gps.length
      ++ (le64 ss ++ ([if cox then 1 else 0] ++ ([if demo then 1 else 0] ++ (le32 ct ++
      (le32 ft ++ List.replicate 22 0)))))))).length from hpre.symm]
    exact readIMUSamples_encode imu _ _ himu
  have hpre2 : ((magicV1Padded ++ (le32 imu.length ++ (le32 gps.length ++ (le64 ss ++
      ([if cox then 1 else 0] ++ ([if demo then 1 else 0] ++ (le32 ct ++
      (le32 ft ++ List.replicate 22 0))))))))
      ++ (imu.map encodeIMUSample).flatten).length = 64 + 32 * imu.length := by
    simp only [List.length_append, hpre, length_flatten_imu]
  have hgpsloop : readGPSSamples (writeV1 ss cox demo ct ft imu gps)
      (64 + 32 * imu.length) gps.length = .ok gps := by
    rw [hgroup2, show 64 + 32 * imu.length = ((magicV1Padded ++ (le32 imu.length ++
      (le32 gps.length ++ (le64 ss ++ ([if cox then 1 else 0] ++ ([if demo then 1 else 0]
      ++ (le32 ct ++ (le32 ft ++ List.replicate 22 0))))))))
      ++ (imu.map encodeIMUSample).flatten).length from hpre2.symm]
    exact readGPSSamples_encode gps _ _ hgps
  simp only [read, hdet, hhdr]
  rw [if_neg (fun hc => absurd hc.1 (by decide))]
  have h64 : (if (1 : Nat) = 2 then 128 else 64) = (64 : Nat) := by norm_num
  rw [h64]
  simp only [himuloop, hgpsloop]
  rw [if_neg (by decide : ¬((1 : Nat) = 2))]

/-- C4 witness: a concrete V1 file with one motion record and no position
records round-trips through `writeV1` and `read`. -/
theorem C4_witness :
    read (writeV1 5 true true 7 9 [⟨1, 2, 3, 4, 5, 6, 7⟩] []) =
      .ok ⟨⟨tagV1, 1, 1, 0, 5, .coxswain, true, 7, 9, 0, false, none⟩,
        [⟨1, 2, 3, 4, 5, 6, 7⟩], [], []⟩ :=
  C4_round_trip 5 7 9 true true [⟨1, 2, 3, 4, 5, 6, 7⟩] []
    (by decide) (by decide) (by decide) (by decide) (by decide)
    (by
      intro s hs
      rw [List.mem_singleton] at hs
      subst hs
      exact ⟨by decide, by decide, by decide, by decide, by decide, by decide,
        by decide⟩)
    (by intro s hs; simp at hs)

end WRC
